import Mathlib

/-!
Verification of the forensic-alpha blending engine
(`src/utils/forensic_alpha.py` of the forensic-alpha-scanner repository).

The embedding translates the pandas code into list-based functions over
exact reals.  Missing values (float NaN in the source tables) are
represented as `none` of `Option ℝ`, following the nullable-numeric
contract of the spec.  A pandas `Series` of scores, as produced by the
app from a single pivot table (so all four series share one year index,
which `pd.DataFrame` then preserves), is modelled as a column of an
input row list; each `RawRow` carries the shared year key and the four
nullable metric values of that year.

pandas semantics used by the source and mirrored here:
* `Series.count`    — number of non-null entries,
* `Series.mean`     — arithmetic mean of the non-null entries,
* `Series.std`      — sample standard deviation (ddof = 1) of the
                      non-null entries,
* `Series.sum`      — sum of the non-null entries (skipna), 0.0 when all
                      entries are null,
* arithmetic on a null (NaN) entry yields null; comparisons with a null
  entry are false,
* `Series.round(4)` — round half to even at 4 decimal places, null kept,
* a boolean row mask (`df[mask]`) keeps the surviving rows in order.
-/

namespace ForensicAlpha

/-- Mean of a list of observations (`Series.mean` over the non-null
entries of the window). -/
noncomputable def listMean (l : List ℝ) : ℝ := l.sum / l.length

/-- Sample variance with ddof = 1, as used by `Series.std`. -/
noncomputable def sampleVar (l : List ℝ) : ℝ :=
  (l.map (fun x => (x - listMean l) ^ 2)).sum / ((l.length : ℝ) - 1)

/-- Sample standard deviation (`window.std()`), ddof = 1. -/
noncomputable def sampleStd (l : List ℝ) : ℝ := Real.sqrt (sampleVar l)

/-- One loop iteration of `rolling_zscore`: given the window
`series.iloc[: i + 1]`, produce the normalized value appended at
position `i`.  Source lines 11-17:

    if window.count() < 2 or window.std() == 0:
        z.append(0.0)
    else:
        z.append((window.iloc[-1] - window.mean()) / window.std())

`window.iloc[-1]` is the raw (possibly null) last entry of the window;
subtracting the mean from a null entry and dividing by the std keeps it
null. -/
noncomputable def zscoreStep (w : List (Option ℝ)) : Option ℝ :=
  let obs := w.reduceOption
  if obs.length < 2 ∨ sampleStd obs = 0 then some 0
  else (w.getLast?.join).map (fun v => (v - listMean obs) / sampleStd obs)

/-- `rolling_zscore` (source lines 8-19): expanding-window z-score.  The
value at position `i` is computed from the window of positions
`0 .. i`. -/
noncomputable def rollingZscore (l : List (Option ℝ)) : List (Option ℝ) :=
  (List.range l.length).map (fun i => zscoreStep (l.take (i + 1)))

/-- One row of the assembled input table: the year key and the four raw
metric values of that year (null = missing). -/
structure RawRow where
  year : ℤ
  beneish : Option ℝ
  sloan : Option ℝ
  piotroski : Option ℝ
  altman : Option ℝ

/-- `df.notna().sum(axis=1)` restricted to the four metric columns:
number of non-null signals in the row (source line 49). -/
def signalCount (r : RawRow) : ℕ :=
  (if r.beneish.isSome then 1 else 0) + (if r.sloan.isSome then 1 else 0) +
    (if r.piotroski.isSome then 1 else 0) + (if r.altman.isSome then 1 else 0)

/-- `df = df[df["signal_count"] >= min_signals]` (source line 50): keep
the rows meeting the threshold, in their original order. -/
def filteredRows (input : List RawRow) (minSignals : ℤ) : List RawRow :=
  input.filter (fun r => minSignals ≤ (signalCount r : ℤ))

/-- One row of the normalized signal table (source lines 58-63): the
four direction-corrected normalized values of one surviving year. -/
structure SigRow where
  beneish_signal : Option ℝ
  sloan_signal : Option ℝ
  piotroski_signal : Option ℝ
  altman_signal : Option ℝ

/-- Zip four equally long columns into rows. -/
def zip4 {α β γ δ : Type} : List α → List β → List γ → List δ →
    List (α × β × γ × δ)
  | a :: as, b :: bs, c :: cs, d :: ds => (a, b, c, d) :: zip4 as bs cs ds
  | _, _, _, _ => []

/-- Negate a nullable column (`-rolling_zscore(...)`; null stays null). -/
def negCol (l : List (Option ℝ)) : List (Option ℝ) :=
  l.map (Option.map (fun x => -x))

/-- The normalized signal table (source lines 58-63): per-column
expanding z-scores of the surviving rows, with the beneish and sloan
columns negated (direction correction). -/
noncomputable def signalsTable (df : List RawRow) : List SigRow :=
  (zip4 (negCol (rollingZscore (df.map RawRow.beneish)))
      (negCol (rollingZscore (df.map RawRow.sloan)))
      (rollingZscore (df.map RawRow.piotroski))
      (rollingZscore (df.map RawRow.altman))).map
    (fun t => ⟨t.1, t.2.1, t.2.2.1, t.2.2.2⟩)

/-- `base_weights` (source lines 68-73). -/
def wBeneish : ℝ := 0.35
/-- `base_weights` (source lines 68-73). -/
def wSloan : ℝ := 0.25
/-- `base_weights` (source lines 68-73). -/
def wPiotroski : ℝ := 0.25
/-- `base_weights` (source lines 68-73). -/
def wAltman : ℝ := 0.15

/-- `weighted = signals.mul(weights)` (source line 80): multiply every
signal by the static weight of its column; a null signal yields a null
weighted contribution. -/
noncomputable def weightedRow (s : SigRow) : SigRow :=
  ⟨s.beneish_signal.map (· * wBeneish), s.sloan_signal.map (· * wSloan),
    s.piotroski_signal.map (· * wPiotroski), s.altman_signal.map (· * wAltman)⟩

/-- `Series.sum` with skipna: sum of the non-null entries, 0.0 when all
are null. -/
noncomputable def optSum (l : List (Option ℝ)) : ℝ := l.reduceOption.sum

/-- `weighted.notna().mul(weights).sum(axis=1)` (source line 82): the
effective denominator of a year, i.e. the sum of the static weights of
the columns whose weighted contribution is non-null. -/
noncomputable def effectiveDenom (s : SigRow) : ℝ :=
  let w := weightedRow s
  (if w.beneish_signal.isSome then wBeneish else 0) +
    (if w.sloan_signal.isSome then wSloan else 0) +
    (if w.piotroski_signal.isSome then wPiotroski else 0) +
    (if w.altman_signal.isSome then wAltman else 0)

/-- `weighted.sum(axis=1) / normalized_weights.replace(0, np.nan)`
(source line 84): the pre-rounding forensic alpha of one year.  The
numerator is the skipna row sum of the weighted contributions; replacing
a zero denominator by NaN makes the quotient null instead of a
divide-by-zero. -/
noncomputable def blendAlphaPre (s : SigRow) : Option ℝ :=
  let w := weightedRow s
  let denom := effectiveDenom s
  if denom = 0 then none
  else some (optSum [w.beneish_signal, w.sloan_signal, w.piotroski_signal,
    w.altman_signal] / denom)

/-- Round half to even (the IEEE-754 rounding used by
`Series.round`). -/
noncomputable def roundHalfEven (y : ℝ) : ℤ :=
  if Int.fract y = 1 / 2 then (if Even ⌊y⌋ then ⌊y⌋ else ⌊y⌋ + 1)
  else round y

/-- `.round(4)` (source line 90): round to 4 decimal places, half to
even. -/
noncomputable def round4 (x : ℝ) : ℝ := (roundHalfEven (x * 10000) : ℝ) / 10000

/-- Float comparison against a nullable value: a null (NaN) operand
makes `<` false. -/
noncomputable def optGtB : Option ℝ → ℝ → Bool
  | none, _ => false
  | some x, c => decide (c < x)

/-- Float comparison against a nullable value: a null (NaN) operand
makes `<` false. -/
noncomputable def optLtB : Option ℝ → ℝ → Bool
  | none, _ => false
  | some x, c => decide (x < c)

/-- `label` (source lines 96-106): classify the rounded alpha, null
passed through the same comparison chain (every comparison with a null
is false, so the final branch is reached). -/
noncomputable def labelStr (a : Option ℝ) : String :=
  if optGtB a 1.0 then "Strong Positive"
  else if optGtB a 0.3 then "Positive"
  else if optLtB a (-1.0) then "Strong Negative"
  else if optLtB a (-0.3) then "Negative"
  else "Neutral"

/-- One row of the output table (`result`, source lines 89-108): the
four normalized signals, the rounded forensic alpha, the carried signal
count and the qualitative label, keyed by the year. -/
structure AlphaRow where
  year : ℤ
  beneish_signal : Option ℝ
  sloan_signal : Option ℝ
  piotroski_signal : Option ℝ
  altman_signal : Option ℝ
  forensic_alpha : Option ℝ
  signal_count : ℕ
  signal : String

/-- Assemble one output row from a surviving input row and its
normalized signal row. -/
noncomputable def mkAlphaRow (r : RawRow) (s : SigRow) : AlphaRow :=
  let alpha := (blendAlphaPre s).map round4
  { year := r.year
    beneish_signal := s.beneish_signal
    sloan_signal := s.sloan_signal
    piotroski_signal := s.piotroski_signal
    altman_signal := s.altman_signal
    forensic_alpha := alpha
    signal_count := signalCount r
    signal := labelStr alpha }

/-- `forensic_alpha` (source lines 25-108): filter the rows by the
minimum signal count, return the empty table if nothing survives,
otherwise normalize per column, blend with dynamic renormalization,
round, and label. -/
noncomputable def forensicAlpha (input : List RawRow) (minSignals : ℤ := 3) :
    List AlphaRow :=
  let df := filteredRows input minSignals
  if df.isEmpty then []
  else df.zipWith mkAlphaRow (signalsTable df)

/-- The pre-rounding alpha column of the pipeline: `blendAlphaPre`
applied to every row of the normalized signal table of the surviving
rows. -/
noncomputable def alphaPreList (input : List RawRow) (minSignals : ℤ) :
    List (Option ℝ) :=
  (signalsTable (filteredRows input minSignals)).map blendAlphaPre

/-! ### Helper lemmas about the embedding -/

theorem length_rollingZscore (l : List (Option ℝ)) :
    (rollingZscore l).length = l.length := by
  simp [rollingZscore]

theorem getElem?_rollingZscore (l : List (Option ℝ)) (i : ℕ) :
    (rollingZscore l)[i]? =
      if i < l.length then some (zscoreStep (l.take (i + 1))) else none := by
  by_cases h : i < l.length
  · rw [if_pos h]
    simp [rollingZscore, List.getElem?_map, List.getElem?_range h]
  · rw [if_neg h]
    exact List.getElem?_eq_none (by simp [rollingZscore]; omega)

theorem zscoreStep_degen (w : List (Option ℝ))
    (h : w.reduceOption.length < 2 ∨ sampleStd w.reduceOption = 0) :
    zscoreStep w = some 0 := by
  simp only [zscoreStep]
  rw [if_pos h]

theorem zscoreStep_active (w : List (Option ℝ))
    (h : ¬(w.reduceOption.length < 2 ∨ sampleStd w.reduceOption = 0)) :
    zscoreStep w = (w.getLast?.join).map
      (fun v => (v - listMean w.reduceOption) / sampleStd w.reduceOption) := by
  simp only [zscoreStep]
  rw [if_neg h]

theorem sampleStd_of_sq (l : List ℝ) (s : ℝ) (h0 : 0 ≤ s)
    (h : sampleVar l = s ^ 2) : sampleStd l = s := by
  rw [sampleStd, h, Real.sqrt_sq h0]

theorem sampleStd_ne_zero_of_pos (l : List ℝ) (h : 0 < sampleVar l) :
    sampleStd l ≠ 0 := by
  rw [sampleStd]
  exact (Real.sqrt_ne_zero').2 h

theorem sampleStd_of_zero (l : List ℝ) (h : sampleVar l = 0) :
    sampleStd l = 0 := by
  rw [sampleStd, h, Real.sqrt_zero]

theorem getLast?_take_succ (l : List (Option ℝ)) (i : ℕ) (h : i < l.length) :
    (l.take (i + 1)).getLast? = l[i]? := by
  rw [List.getLast?_eq_getElem?, List.length_take]
  have hmin : min (i + 1) l.length = i + 1 := by omega
  rw [hmin]
  simp only [Nat.add_sub_cancel]
  rw [List.getElem?_take, if_pos (Nat.lt_succ_self i)]

theorem getElem?_zip4 {α β γ δ : Type} (as : List α) (bs : List β)
    (cs : List γ) (ds : List δ) (i : ℕ) :
    (zip4 as bs cs ds)[i]? =
      as[i]?.bind fun a => bs[i]?.bind fun b => cs[i]?.bind fun c =>
        ds[i]?.map fun d => (a, b, c, d) := by
  induction as generalizing bs cs ds i with
  | nil => simp [zip4]
  | cons a as ih =>
    cases bs with
    | nil => simp [zip4]
    | cons b bs =>
      cases cs with
      | nil => simp [zip4]
      | cons c cs =>
        cases ds with
        | nil => simp [zip4]
        | cons d ds =>
          cases i with
          | zero => simp [zip4]
          | succ n => simpa [zip4] using ih bs cs ds n

theorem getElem?_zipWith {α β γ : Type} (f : α → β → γ) (as : List α)
    (bs : List β) (i : ℕ) :
    (List.zipWith f as bs)[i]? =
      as[i]?.bind fun a => bs[i]?.map (f a) := by
  induction as generalizing bs i with
  | nil => simp
  | cons a as ih =>
    cases bs with
    | nil => simp
    | cons b bs =>
      cases i with
      | zero => simp
      | succ n => simpa using ih bs n

/-- Row `i` of the normalized signal table, expressed by column. -/
theorem getElem?_signalsTable (df : List RawRow) (i : ℕ) :
    (signalsTable df)[i]? =
      if i < df.length then
        some ⟨(zscoreStep ((df.map RawRow.beneish).take (i + 1))).map (fun x => -x),
          (zscoreStep ((df.map RawRow.sloan).take (i + 1))).map (fun x => -x),
          zscoreStep ((df.map RawRow.piotroski).take (i + 1)),
          zscoreStep ((df.map RawRow.altman).take (i + 1))⟩
      else none := by
  have hlen : ∀ c : RawRow → Option ℝ, (df.map c).length = df.length := by
    simp
  by_cases h : i < df.length
  · rw [if_pos h]
    simp only [signalsTable, negCol, List.getElem?_map, getElem?_zip4,
      getElem?_rollingZscore, hlen, if_pos h]
    simp
  · rw [if_neg h]
    simp only [signalsTable, negCol, List.getElem?_map, getElem?_zip4,
      getElem?_rollingZscore, hlen, if_neg h]
    simp

/-- Row `i` of the output table: the surviving row and its signal row
assembled by `mkAlphaRow`. -/
theorem getElem?_forensicAlpha (input : List RawRow) (m : ℤ) (i : ℕ) :
    (forensicAlpha input m)[i]? =
      ((filteredRows input m)[i]?).bind fun r =>
        ((signalsTable (filteredRows input m))[i]?).map (mkAlphaRow r) := by
  rw [forensicAlpha]
  by_cases h : (filteredRows input m).isEmpty
  · have : filteredRows input m = [] := List.isEmpty_iff.mp h
    simp [this, h]
  · simp only [if_neg h]
    exact getElem?_zipWith mkAlphaRow _ _ i

theorem length_signalsTable (df : List RawRow) :
    (signalsTable df).length = df.length := by
  apply le_antisymm
  · by_contra hlt
    push_neg at hlt
    have := getElem?_signalsTable df df.length
    rw [if_neg (lt_irrefl _)] at this
    have h2 : (signalsTable df)[df.length]?.isSome := by
      simp [List.getElem?_eq_getElem hlt]
    rw [this] at h2
    simp at h2
  · by_contra hlt
    push_neg at hlt
    have := getElem?_signalsTable df (signalsTable df).length
    rw [if_pos hlt] at this
    have h2 : (signalsTable df)[(signalsTable df).length]? = none :=
      List.getElem?_eq_none le_rfl
    rw [this] at h2
    simp at h2

/-- Nullity of a normalized value: the entry at `i` is null exactly
when the source entry at `i` is null and the window is non-degenerate
(at least 2 non-null observations and nonzero sample standard
deviation). -/
theorem rollingZscore_none_iff (l : List (Option ℝ)) (i : ℕ)
    (hi : i < l.length) :
    (rollingZscore l)[i]? = some none ↔
      l[i]? = some none ∧ 2 ≤ (l.take (i + 1)).reduceOption.length ∧
        sampleStd ((l.take (i + 1)).reduceOption) ≠ 0 := by
  rw [getElem?_rollingZscore, if_pos hi, Option.some_inj]
  by_cases hdeg : (l.take (i + 1)).reduceOption.length < 2 ∨
      sampleStd ((l.take (i + 1)).reduceOption) = 0
  · rw [zscoreStep_degen _ hdeg]
    constructor
    · intro h
      exact absurd h (by simp)
    · rintro ⟨-, h2, h3⟩
      rcases hdeg with h | h
      · omega
      · exact absurd h h3
  · rw [zscoreStep_active _ hdeg]
    push_neg at hdeg
    obtain ⟨h2, h3⟩ := hdeg
    rw [getLast?_take_succ l i hi]
    have ⟨a, ha⟩ : ∃ a, l[i]? = some a := by
      rw [List.getElem?_eq_getElem hi]
      exact ⟨_, rfl⟩
    rw [ha]
    cases a with
    | none => simpa using ⟨by omega, h3⟩
    | some v => simp

/-- A non-null source entry always yields a non-null normalized
entry. -/
theorem rollingZscore_isSome_of_some (l : List (Option ℝ)) (i : ℕ) (v : ℝ)
    (hv : l[i]? = some (some v)) :
    ∃ x : ℝ, (rollingZscore l)[i]? = some (some x) := by
  have hi : i < l.length := by
    by_contra h
    rw [List.getElem?_eq_none (by omega)] at hv
    exact Option.noConfusion hv
  rcases hz : zscoreStep (l.take (i + 1)) with _ | x
  · have := (rollingZscore_none_iff l i hi).mp
      (by rw [getElem?_rollingZscore, if_pos hi, hz])
    rw [hv] at this
    exact absurd this.1 (by simp)
  · exact ⟨x, by rw [getElem?_rollingZscore, if_pos hi, hz]⟩

/-! ### Claim theorems -/

/-- Claim C1: no look-ahead.  The normalized value produced at position
`i` by the expanding-window normalization depends only on positions
`0 .. i`: any two series that agree on positions `0 .. i` (so altering,
removing or appending values at positions strictly greater than `i`
changes nothing) produce the identical normalized value at `i`; and
recomputing with an identical series reproduces the result exactly. -/
theorem rolling_zscore_no_lookahead :
    (∀ (l1 l2 : List (Option ℝ)) (i : ℕ), l1.take (i + 1) = l2.take (i + 1) →
      (rollingZscore l1)[i]? = (rollingZscore l2)[i]?) ∧
    (∀ l : List (Option ℝ), rollingZscore l = rollingZscore l) := by
  refine ⟨fun l1 l2 i h => ?_, fun l => rfl⟩
  rw [getElem?_rollingZscore, getElem?_rollingZscore, h]
  have hlen : min (i + 1) l1.length = min (i + 1) l2.length := by
    have := congrArg List.length h
    simpa [List.length_take] using this
  by_cases h1 : i < l1.length
  · have h2 : i < l2.length := by omega
    rw [if_pos h1, if_pos h2]
  · have h2 : ¬ i < l2.length := by omega
    rw [if_neg h1, if_neg h2]

/-- Witness for C1 at a concrete input: the two series agree on
positions 0..1, so the normalized values at position 1 coincide even
though the later positions differ. -/
theorem rolling_zscore_no_lookahead_witness :
    List.take 2 [some (1 : ℝ), some 2, some 3] =
      List.take 2 [some (1 : ℝ), some 2, some 99, some 4] ∧
    (rollingZscore [some (1 : ℝ), some 2, some 3])[1]? =
      (rollingZscore [some (1 : ℝ), some 2, some 99, some 4])[1]? :=
  ⟨rfl, rolling_zscore_no_lookahead.1 _ _ 1 rfl⟩

theorem sampleVar_replicate (k : ℕ) (c : ℝ) :
    sampleVar (List.replicate k c) = 0 := by
  cases k with
  | zero => simp [sampleVar, listMean]
  | succ n =>
    have hmean : listMean (List.replicate (n + 1) c) = c := by
      rw [listMean, List.sum_replicate, List.length_replicate]
      rw [nsmul_eq_mul]
      field_simp
    rw [sampleVar, hmean]
    have : (List.replicate (n + 1) c).map (fun x => (x - c) ^ 2) =
        List.replicate (n + 1) 0 := by
      rw [List.map_replicate]
      simp
    rw [this, List.sum_replicate]
    simp

/-- Claim C5: the expanding-window normalization formula.  Position 0 is
always 0.0; a constant non-null series is 0.0 everywhere; a window with
fewer than 2 non-null observations or zero sample standard deviation
yields 0.0; otherwise the value is `(value_i - mean(window)) /
stddev(window)` with the mean and the sample standard deviation
(divide by N - 1) of the non-null window observations, spelled out
below; and on the window `[0, 1, 2]` the value is exactly 1 (the sample
standard deviation is 1; the population standard deviation would give a
different value). -/
theorem rolling_zscore_formula :
    (∀ l : List (Option ℝ), l ≠ [] → (rollingZscore l)[0]? = some (some 0)) ∧
    (∀ (c : ℝ) (n i : ℕ), i < n →
      (rollingZscore (List.replicate n (some c)))[i]? = some (some 0)) ∧
    (∀ (l : List (Option ℝ)) (i : ℕ), i < l.length →
      (l.take (i + 1)).reduceOption.length < 2 ∨
        sampleStd ((l.take (i + 1)).reduceOption) = 0 →
      (rollingZscore l)[i]? = some (some 0)) ∧
    (∀ (l : List (Option ℝ)) (i : ℕ), i < l.length →
      2 ≤ (l.take (i + 1)).reduceOption.length →
      sampleStd ((l.take (i + 1)).reduceOption) ≠ 0 →
      (rollingZscore l)[i]? = some ((l[i]?.join).map (fun v =>
        (v - ((l.take (i + 1)).reduceOption.sum /
            (l.take (i + 1)).reduceOption.length)) /
          Real.sqrt (((l.take (i + 1)).reduceOption.map (fun x =>
              (x - ((l.take (i + 1)).reduceOption.sum /
                (l.take (i + 1)).reduceOption.length)) ^ 2)).sum /
            (((l.take (i + 1)).reduceOption.length : ℝ) - 1))))) ∧
    zscoreStep [some 0, some 1, some 2] = some 1 := by
  have hobs : ([some (0 : ℝ), some 1, some 2]).reduceOption = [0, 1, 2] := by
    simp
  have hvar012 : sampleVar [(0 : ℝ), 1, 2] = 1 := by
    norm_num [sampleVar, listMean]
  have hstd012 : sampleStd [(0 : ℝ), 1, 2] = 1 :=
    sampleStd_of_sq _ 1 (by norm_num) (by rw [hvar012]; norm_num)
  have hmean012 : listMean [(0 : ℝ), 1, 2] = 1 := by
    norm_num [listMean]
  refine ⟨?_, ?_, ?_, ?_, ?_⟩
  · intro l hl
    rw [getElem?_rollingZscore, if_pos (by cases l <;> simp_all)]
    congr 1
    apply zscoreStep_degen
    left
    have : (l.take 1).length ≤ 1 := by simp
    calc (l.take 1).reduceOption.length ≤ (l.take 1).length :=
          List.reduceOption_length_le _
      _ ≤ 1 := this
      _ < 2 := by norm_num
  · intro c n i hi
    rw [getElem?_rollingZscore, if_pos (by simpa using hi)]
    congr 1
    apply zscoreStep_degen
    rw [List.take_replicate]
    have hobs : (List.replicate (min (i + 1) n) (some c)).reduceOption =
        List.replicate (min (i + 1) n) c := by
      induction (min (i + 1) n) with
      | zero => simp
      | succ k ih => simpa [List.replicate_succ] using ih
    rw [hobs]
    right
    exact sampleStd_of_zero _ (sampleVar_replicate _ c)
  · intro l i hi h
    rw [getElem?_rollingZscore, if_pos hi]
    congr 1
    exact zscoreStep_degen _ h
  · intro l i hi h2 hstd
    rw [getElem?_rollingZscore, if_pos hi]
    congr 1
    rw [zscoreStep_active _ (by push_neg; exact ⟨by omega, hstd⟩),
      getLast?_take_succ l i hi]
    rfl
  · have hne : ¬(([some (0 : ℝ), some 1, some 2].reduceOption).length < 2 ∨
        sampleStd ([some (0 : ℝ), some 1, some 2].reduceOption) = 0) := by
      rw [hobs]
      push_neg
      exact ⟨by norm_num, by rw [hstd012]; norm_num⟩
    rw [zscoreStep_active _ hne, hobs, hmean012, hstd012]
    norm_num

/-- Witness for C5: the formula evaluated on concrete series.  On
`[0, 1, 2]` at position 2 the window mean is 1 and the sample standard
deviation is 1, so the normalized value is `(2 - 1) / 1 = 1`. -/
theorem rolling_zscore_formula_witness :
    (rollingZscore [some (5 : ℝ)])[0]? = some (some 0) ∧
    (rollingZscore (List.replicate 4 (some (5 : ℝ))))[2]? = some (some 0) ∧
    (rollingZscore [some (7 : ℝ), some 7])[1]? = some (some 0) ∧
    (rollingZscore [some (0 : ℝ), some 1, some 2])[2]? = some (some 1) := by
  refine ⟨rolling_zscore_formula.1 _ (by simp),
    rolling_zscore_formula.2.1 5 4 2 (by norm_num), ?_, ?_⟩
  · refine rolling_zscore_formula.2.2.1 [some (7 : ℝ), some 7] 1 (by norm_num)
      (Or.inr ?_)
    have hobs : (List.take (1 + 1) [some (7 : ℝ), some 7]).reduceOption =
        [7, 7] := by simp
    rw [hobs]
    exact sampleStd_of_zero _ (by norm_num [sampleVar, listMean])
  · rw [getElem?_rollingZscore, if_pos (by norm_num)]
    show some (zscoreStep [some (0 : ℝ), some 1, some 2]) = some (some 1)
    rw [rolling_zscore_formula.2.2.2.2]

/-- Claim C8: label boundaries.  The classification of a non-null
rounded alpha uses strict thresholds in priority order: above 1.0 it is
"Strong Positive", above 0.3 (and not above 1.0) "Positive", below -1.0
"Strong Negative", below -0.3 (and not below -1.0) "Negative",
otherwise "Neutral"; in particular 1.0 maps to "Positive", 1.0001 to
"Strong Positive", 0.3 and -0.3 to "Neutral", and -0.3001 to
"Negative". -/
theorem label_boundaries :
    (∀ x : ℝ, 1 < x → labelStr (some x) = "Strong Positive") ∧
    (∀ x : ℝ, 0.3 < x → x ≤ 1 → labelStr (some x) = "Positive") ∧
    (∀ x : ℝ, x < -1 → labelStr (some x) = "Strong Negative") ∧
    (∀ x : ℝ, -1 ≤ x → x < -0.3 → labelStr (some x) = "Negative") ∧
    (∀ x : ℝ, -0.3 ≤ x → x ≤ 0.3 → labelStr (some x) = "Neutral") ∧
    labelStr (some 1) = "Positive" ∧
    labelStr (some 1.0001) = "Strong Positive" ∧
    labelStr (some 0.3) = "Neutral" ∧
    labelStr (some (-0.3)) = "Neutral" ∧
    labelStr (some (-0.3001)) = "Negative" := by
  refine ⟨fun x h => ?_, fun x h1 h2 => ?_, fun x h => ?_, fun x h1 h2 => ?_,
    fun x h1 h2 => ?_, ?_, ?_, ?_, ?_, ?_⟩
  · have hg : optGtB (some x) 1.0 = true := by
      simp [optGtB]
      norm_num at h ⊢
      exact h
    simp [labelStr, hg]
  · have hg1 : optGtB (some x) 1.0 = false := by
      simp [optGtB]
      norm_num at h2 ⊢
      exact h2
    have hg2 : optGtB (some x) 0.3 = true := by
      simp [optGtB]
      norm_num at h1 ⊢
      exact h1
    simp [labelStr, hg1, hg2]
  · have hg1 : optGtB (some x) 1.0 = false := by
      simp [optGtB]
      norm_num
      linarith
    have hg2 : optGtB (some x) 0.3 = false := by
      simp [optGtB]
      norm_num
      linarith
    have hl : optLtB (some x) (-1.0) = true := by
      simp [optLtB]
      norm_num at h ⊢
      exact h
    simp [labelStr, hg1, hg2, hl]
  · have hg1 : optGtB (some x) 1.0 = false := by
      simp [optGtB]
      norm_num
      linarith
    have hg2 : optGtB (some x) 0.3 = false := by
      simp [optGtB]
      norm_num
      linarith
    have hl1 : optLtB (some x) (-1.0) = false := by
      simp [optLtB]
      norm_num
      linarith
    have hl2 : optLtB (some x) (-0.3) = true := by
      simp [optLtB]
      norm_num at h2 ⊢
      exact h2
    simp [labelStr, hg1, hg2, hl1, hl2]
  · have hg1 : optGtB (some x) 1.0 = false := by
      simp [optGtB]
      norm_num
      linarith
    have hg2 : optGtB (some x) 0.3 = false := by
      simp [optGtB]
      norm_num
      linarith
    have hl1 : optLtB (some x) (-1.0) = false := by
      simp [optLtB]
      norm_num
      linarith
    have hl2 : optLtB (some x) (-0.3) = false := by
      simp [optLtB]
      norm_num
      linarith
    simp [labelStr, hg1, hg2, hl1, hl2]
  · norm_num [labelStr, optGtB, optLtB]
  · norm_num [labelStr, optGtB, optLtB]
  · norm_num [labelStr, optGtB, optLtB]
  · norm_num [labelStr, optGtB, optLtB]
  · norm_num [labelStr, optGtB, optLtB]

/-- Witness for C8 at concrete inputs: a value strictly above the 1.0
threshold is labeled "Strong Positive", one in the (0.3, 1.0] band
"Positive". -/
theorem label_boundaries_witness :
    labelStr (some (2 : ℝ)) = "Strong Positive" ∧
    labelStr (some (0.5 : ℝ)) = "Positive" ∧
    labelStr (some (-2 : ℝ)) = "Strong Negative" ∧
    labelStr (some (-0.5 : ℝ)) = "Negative" ∧
    labelStr (some (0 : ℝ)) = "Neutral" :=
  ⟨label_boundaries.1 2 (by norm_num),
    label_boundaries.2.1 0.5 (by norm_num) (by norm_num),
    label_boundaries.2.2.1 (-2) (by norm_num),
    label_boundaries.2.2.2.1 (-0.5) (by norm_num) (by norm_num),
    label_boundaries.2.2.2.2.1 0 (by norm_num) (by norm_num)⟩

/-- Concrete input: two complete years followed by a year in which all
four metrics are missing. -/
def I3 : List RawRow :=
  [⟨2020, some 0, some 0, some 0, some 0⟩,
    ⟨2021, some 1, some 1, some 1, some 1⟩,
    ⟨2022, none, none, none, none⟩]

theorem zscoreStep_null_tail :
    zscoreStep [some (0 : ℝ), some 1, none] = none := by
  have hobs : ([some (0 : ℝ), some 1, none]).reduceOption = [0, 1] := by simp
  have hne : ¬(([some (0 : ℝ), some 1, none].reduceOption).length < 2 ∨
      sampleStd ([some (0 : ℝ), some 1, none].reduceOption) = 0) := by
    rw [hobs]
    push_neg
    refine ⟨by norm_num, sampleStd_ne_zero_of_pos _ ?_⟩
    norm_num [sampleVar, listMean]
  rw [zscoreStep_active _ hne]
  simp

/-- Counterexample to claim C3: on an input whose third year has all
four metrics missing (surviving because `min_signals = 0`, which the
function accepts), the forensic alpha of that year is null and yet the
assigned label is "Neutral" — a bucket of the five-bucket enum — rather
than a propagated null/"unavailable" state. -/
theorem null_alpha_label_cex :
    ((forensicAlpha I3 0)[2]?).map (fun r => (r.forensic_alpha, r.signal)) =
      some (none, "Neutral") := by
  have hfilter : filteredRows I3 0 = I3 := by
    simp [filteredRows, I3, signalCount]
  rw [getElem?_forensicAlpha, hfilter, getElem?_signalsTable]
  rw [if_pos (by norm_num [I3])]
  have hb : I3.map RawRow.beneish = [some 0, some 1, none] := by simp [I3]
  have hs : I3.map RawRow.sloan = [some 0, some 1, none] := by simp [I3]
  have hp : I3.map RawRow.piotroski = [some 0, some 1, none] := by simp [I3]
  have ha : I3.map RawRow.altman = [some 0, some 1, none] := by simp [I3]
  rw [hb, hs, hp, ha]
  have htake : List.take (2 + 1) [some (0 : ℝ), some 1, none] =
      [some 0, some 1, none] := rfl
  rw [htake, zscoreStep_null_tail]
  have hrow : I3[2]? = some ⟨2022, none, none, none, none⟩ := by simp [I3]
  rw [hrow]
  simp [mkAlphaRow, blendAlphaPre, weightedRow, effectiveDenom, labelStr,
    optGtB, optLtB]

/-- Claim C3 amended: a null forensic alpha is not propagated to the
label; the classifier maps it to "Neutral" (every comparison with the
null fails, so the final branch is taken), and every output row carries
exactly the label of its rounded alpha. -/
theorem label_of_null_alpha :
    labelStr none = "Neutral" ∧
    (∀ (input : List RawRow) (m : ℤ) (i : ℕ),
      ((forensicAlpha input m)[i]?).map (fun r => r.signal) =
        ((forensicAlpha input m)[i]?).map
          (fun r => labelStr r.forensic_alpha)) := by
  constructor
  · simp [labelStr, optGtB, optLtB]
  · intro input m i
    rw [getElem?_forensicAlpha]
    rcases (filteredRows input m)[i]? with _ | r
    · simp
    · rcases (signalsTable (filteredRows input m))[i]? with _ | s
      · simp
      · simp [mkAlphaRow]

/-- Concrete input: the first year is missing its beneish value but has
the other three metrics, so it survives the default threshold. -/
def I4 : List RawRow :=
  [⟨2020, none, some 1, some 1, some 1⟩,
    ⟨2021, some 1, some 1, some 1, some 1⟩,
    ⟨2022, some 1, some 1, some 1, some 1⟩]

/-- Counterexample to claim C4: in the normalized table the beneish
entry of the first surviving year is 0.0 (by the degenerate-window
rule) even though the beneish source value of that year is null — so
"entry is null iff the source was null" fails in the only-if
direction. -/
theorem normalized_null_cex :
    (I4.map RawRow.beneish)[0]? = some none ∧
    ((signalsTable (filteredRows I4 3))[0]?).map (fun s => s.beneish_signal) =
      some (some 0) := by
  constructor
  · simp [I4]
  · have hfilter : filteredRows I4 3 = I4 := by
      simp [filteredRows, I4, signalCount]
    rw [hfilter, getElem?_signalsTable, if_pos (by norm_num [I4])]
    have hb : I4.map RawRow.beneish = [none, some 1, some 1] := by simp [I4]
    rw [hb]
    have hz : zscoreStep (List.take (0 + 1) [none, some (1 : ℝ), some 1]) =
        some 0 := zscoreStep_degen _ (Or.inl (by simp))
    rw [hz]
    simp

/-- Claim C4 amended: the normalized entry at a year is null iff the
source value at that year is null and the window up to that year is
non-degenerate (at least 2 non-null observations and nonzero sample
standard deviation); every entry with a non-null source is a real
number, and a null source inside a degenerate window also yields the
real 0.0 instead of null.  Nullity of the table columns coincides with
nullity of the per-column normalization (negation preserves it). -/
theorem normalized_null_iff :
    (∀ (l : List (Option ℝ)) (i : ℕ), i < l.length →
      ((rollingZscore l)[i]? = some none ↔
        l[i]? = some none ∧ 2 ≤ (l.take (i + 1)).reduceOption.length ∧
          sampleStd ((l.take (i + 1)).reduceOption) ≠ 0)) ∧
    (∀ (l : List (Option ℝ)) (i : ℕ) (v : ℝ), l[i]? = some (some v) →
      ∃ x : ℝ, (rollingZscore l)[i]? = some (some x)) ∧
    (∀ (df : List RawRow) (i : ℕ),
      ((signalsTable df)[i]?).map (fun s => s.beneish_signal.isSome) =
        ((rollingZscore (df.map RawRow.beneish))[i]?).map Option.isSome ∧
      ((signalsTable df)[i]?).map (fun s => s.sloan_signal.isSome) =
        ((rollingZscore (df.map RawRow.sloan))[i]?).map Option.isSome ∧
      ((signalsTable df)[i]?).map (fun s => s.piotroski_signal.isSome) =
        ((rollingZscore (df.map RawRow.piotroski))[i]?).map Option.isSome ∧
      ((signalsTable df)[i]?).map (fun s => s.altman_signal.isSome) =
        ((rollingZscore (df.map RawRow.altman))[i]?).map Option.isSome) := by
  refine ⟨rollingZscore_none_iff, rollingZscore_isSome_of_some, fun df i => ?_⟩
  have hlen : ∀ c : RawRow → Option ℝ, (df.map c).length = df.length := by simp
  by_cases h : i < df.length
  · rw [getElem?_signalsTable, if_pos h]
    refine ⟨?_, ?_, ?_, ?_⟩ <;>
      · rw [getElem?_rollingZscore, hlen, if_pos h]
        simp
  · rw [getElem?_signalsTable, if_neg h]
    refine ⟨?_, ?_, ?_, ?_⟩ <;>
      · rw [getElem?_rollingZscore, hlen, if_neg h]
        simp

/-- Witness for C4 amended: on the series `[0, 1, null]` the entry at
position 2 is null (null source, non-degenerate window), while the
non-null source at position 1 yields a non-null entry. -/
theorem normalized_null_iff_witness :
    (rollingZscore [some (0 : ℝ), some 1, none])[2]? = some none ∧
    (∃ x : ℝ, (rollingZscore [some (0 : ℝ), some 1, none])[1]? =
      some (some x)) := by
  constructor
  · refine (normalized_null_iff.1 [some (0 : ℝ), some 1, none] 2
      (by norm_num)).mpr ⟨rfl, ?_, ?_⟩
    · simp
    · have hobs : (List.take (2 + 1) [some (0 : ℝ), some 1, none]).reduceOption
          = [0, 1] := by simp
      rw [hobs]
      exact sampleStd_ne_zero_of_pos _ (by norm_num [sampleVar, listMean])
  · exact normalized_null_iff.2.1 [some (0 : ℝ), some 1, none] 1 1 rfl

/-- Concrete input whose per-year signal counts are [4, 2, 4, 1, 3]. -/
def I6 : List RawRow :=
  [⟨2018, some 1, some 1, some 1, some 1⟩,
    ⟨2019, some 1, some 1, none, none⟩,
    ⟨2020, some 1, some 1, some 1, some 1⟩,
    ⟨2021, none, none, none, some 1⟩,
    ⟨2022, some 1, none, some 1, some 1⟩]

theorem forensicAlpha_map_year (input : List RawRow) (m : ℤ) :
    (forensicAlpha input m).map AlphaRow.year =
      (filteredRows input m).map RawRow.year := by
  apply List.ext_getElem?
  intro i
  rw [List.getElem?_map, List.getElem?_map, getElem?_forensicAlpha]
  by_cases h : i < (filteredRows input m).length
  · rw [List.getElem?_eq_getElem h,
      List.getElem?_eq_getElem (l := signalsTable _)
        (by rw [length_signalsTable]; exact h)]
    simp [mkAlphaRow]
  · rw [List.getElem?_eq_none (l := filteredRows input m) (by omega)]
    simp

theorem forensicAlpha_map_count (input : List RawRow) (m : ℤ) :
    (forensicAlpha input m).map AlphaRow.signal_count =
      (filteredRows input m).map signalCount := by
  apply List.ext_getElem?
  intro i
  rw [List.getElem?_map, List.getElem?_map, getElem?_forensicAlpha]
  by_cases h : i < (filteredRows input m).length
  · rw [List.getElem?_eq_getElem h,
      List.getElem?_eq_getElem (l := signalsTable _)
        (by rw [length_signalsTable]; exact h)]
    simp [mkAlphaRow]
  · rw [List.getElem?_eq_none (l := filteredRows input m) (by omega)]
    simp

/-- Claim C6: minimum-signal exclusion.  `signal_count` is the per-year
number of non-null entries among the four series; every row below the
threshold is removed entirely (the output is a function of the
surviving rows alone); the surviving rows keep their original order
(the output years are the years of the kept rows in input order); a
fully filtered input yields the empty table; and on the concrete counts
[4, 2, 4, 1, 3] with threshold 3 exactly the rows with counts [4, 4, 3]
survive, in order. -/
theorem min_signal_exclusion :
    (∀ (input : List RawRow) (m : ℤ),
      (forensicAlpha input m).map AlphaRow.year =
        (input.filter (fun r => m ≤ (signalCount r : ℤ))).map RawRow.year) ∧
    (∀ (input : List RawRow) (m : ℤ),
      (forensicAlpha input m).map AlphaRow.signal_count =
        (input.map signalCount).filter (fun c : ℕ => m ≤ (c : ℤ))) ∧
    (∀ (in1 in2 : List RawRow) (m1 m2 : ℤ),
      filteredRows in1 m1 = filteredRows in2 m2 →
      forensicAlpha in1 m1 = forensicAlpha in2 m2) ∧
    (∀ (input : List RawRow) (m : ℤ), filteredRows input m = [] →
      forensicAlpha input m = []) ∧
    I6.map signalCount = [4, 2, 4, 1, 3] ∧
    (forensicAlpha I6 3).map AlphaRow.signal_count = [4, 4, 3] := by
  have hcount : ∀ (input : List RawRow) (m : ℤ),
      (forensicAlpha input m).map AlphaRow.signal_count =
        (input.map signalCount).filter (fun c : ℕ => m ≤ (c : ℤ)) := by
    intro input m
    rw [forensicAlpha_map_count, filteredRows, List.filter_map signalCount input]
    rfl
  refine ⟨fun input m => forensicAlpha_map_year input m, hcount,
    fun in1 in2 m1 m2 h => ?_, fun input m h => ?_, ?_, ?_⟩
  · simp only [forensicAlpha, h]
  · simp only [forensicAlpha, h]
    rfl
  · simp [I6, signalCount]
  · rw [hcount]
    norm_num [I6, signalCount]

/-- Witness for C6: appending a below-threshold year changes nothing,
and an input with no surviving year yields the empty table. -/
theorem min_signal_exclusion_witness :
    forensicAlpha [⟨2020, some 1, some 2, some 3, some 4⟩,
        ⟨2021, none, none, none, none⟩] 3 =
      forensicAlpha [⟨2020, some 1, some 2, some 3, some 4⟩] 3 ∧
    forensicAlpha [⟨2021, none, none, none, none⟩] 3 = [] := by
  constructor
  · exact min_signal_exclusion.2.2.1 _ _ 3 3
      (by norm_num [filteredRows, signalCount])
  · exact min_signal_exclusion.2.2.2.1 _ 3
      (by norm_num [filteredRows, signalCount])

theorem effectiveDenom_pos_of_isSome (s : SigRow)
    (h : s.beneish_signal.isSome ∨ s.sloan_signal.isSome ∨
      s.piotroski_signal.isSome ∨ s.altman_signal.isSome) :
    0 < effectiveDenom s := by
  have e1 : (weightedRow s).beneish_signal.isSome = s.beneish_signal.isSome := by
    simp [weightedRow]
  have e2 : (weightedRow s).sloan_signal.isSome = s.sloan_signal.isSome := by
    simp [weightedRow]
  have e3 : (weightedRow s).piotroski_signal.isSome =
      s.piotroski_signal.isSome := by
    simp [weightedRow]
  have e4 : (weightedRow s).altman_signal.isSome = s.altman_signal.isSome := by
    simp [weightedRow]
  simp only [effectiveDenom, e1, e2, e3, e4]
  have t1 : (0 : ℝ) ≤ if s.beneish_signal.isSome then wBeneish else 0 := by
    split
    · norm_num [wBeneish]
    · norm_num
  have t2 : (0 : ℝ) ≤ if s.sloan_signal.isSome then wSloan else 0 := by
    split
    · norm_num [wSloan]
    · norm_num
  have t3 : (0 : ℝ) ≤ if s.piotroski_signal.isSome then wPiotroski else 0 := by
    split
    · norm_num [wPiotroski]
    · norm_num
  have t4 : (0 : ℝ) ≤ if s.altman_signal.isSome then wAltman else 0 := by
    split
    · norm_num [wAltman]
    · norm_num
  rcases h with h | h | h | h
  · rw [if_pos h]
    have hw : (0 : ℝ) < wBeneish := by norm_num [wBeneish]
    linarith
  · rw [if_pos h]
    have hw : (0 : ℝ) < wSloan := by norm_num [wSloan]
    linarith
  · rw [if_pos h]
    have hw : (0 : ℝ) < wPiotroski := by norm_num [wPiotroski]
    linarith
  · rw [if_pos h]
    have hw : (0 : ℝ) < wAltman := by norm_num [wAltman]
    linarith

/-- Every surviving row satisfies the threshold predicate. -/
theorem filteredRows_count (input : List RawRow) (m : ℤ) (i : ℕ)
    (h : i < (filteredRows input m).length) :
    m ≤ (signalCount ((filteredRows input m)[i]) : ℤ) := by
  have hmem : (filteredRows input m)[i] ∈ filteredRows input m :=
    List.getElem_mem h
  have h2 := List.of_mem_filter
    (p := fun r => decide (m ≤ (signalCount r : ℤ))) (l := input) hmem
  simpa using h2

/-- A row with a positive signal count has at least one non-null
metric. -/
theorem exists_some_of_count_pos (r : RawRow) (h : 1 ≤ signalCount r) :
    r.beneish.isSome ∨ r.sloan.isSome ∨ r.piotroski.isSome ∨
      r.altman.isSome := by
  by_contra hc
  push_neg at hc
  simp only [Bool.not_eq_true, Option.not_isSome_iff_eq_none] at hc
  obtain ⟨h1, h2, h3, h4⟩ := hc
  simp [signalCount, h1, h2, h3, h4] at h

/-- Claim C7: a zero effective denominator is handled by a null alpha,
and is unreachable once `min_signals ≥ 1`: every surviving row then has
at least one non-null normalized signal, so its effective denominator
is strictly positive and its alpha is non-null. -/
theorem zero_denom_safe :
    (∀ s : SigRow, effectiveDenom s = 0 → blendAlphaPre s = none) ∧
    (∀ (input : List RawRow) (m : ℤ), 1 ≤ m → ∀ i : ℕ,
      i < (filteredRows input m).length →
      ∃ s : SigRow, (signalsTable (filteredRows input m))[i]? = some s ∧
        0 < effectiveDenom s ∧
        ((forensicAlpha input m)[i]?).map
          (fun r => r.forensic_alpha.isSome) = some true) := by
  constructor
  · intro s h
    simp [blendAlphaPre, h]
  · intro input m hm i hi
    have hcount : 1 ≤ signalCount ((filteredRows input m)[i]) := by
      have h2 := filteredRows_count input m i hi
      omega
    have hsome := exists_some_of_count_pos _ hcount
    have hdfget : (filteredRows input m)[i]? =
        some ((filteredRows input m)[i]) := List.getElem?_eq_getElem hi
    have hz : ∀ c : RawRow → Option ℝ, (c ((filteredRows input m)[i])).isSome →
        (zscoreStep (((filteredRows input m).map c).take (i + 1))).isSome := by
      intro c hc
      obtain ⟨v, hv⟩ := Option.isSome_iff_exists.mp hc
      obtain ⟨x, hx⟩ := rollingZscore_isSome_of_some
        ((filteredRows input m).map c) i v
        (by simp [List.getElem?_map, hdfget, hv])
      rw [getElem?_rollingZscore, if_pos (by simpa using hi)] at hx
      simp only [Option.some_inj] at hx
      simp [hx]
    have hpos : 0 < effectiveDenom
        ⟨(zscoreStep (((filteredRows input m).map RawRow.beneish).take
            (i + 1))).map (fun x => -x),
          (zscoreStep (((filteredRows input m).map RawRow.sloan).take
            (i + 1))).map (fun x => -x),
          zscoreStep (((filteredRows input m).map RawRow.piotroski).take
            (i + 1)),
          zscoreStep (((filteredRows input m).map RawRow.altman).take
            (i + 1))⟩ := by
      apply effectiveDenom_pos_of_isSome
      rcases hsome with h | h | h | h
      · exact Or.inl (by simpa using hz RawRow.beneish h)
      · exact Or.inr (Or.inl (by simpa using hz RawRow.sloan h))
      · exact Or.inr (Or.inr (Or.inl (by simpa using hz RawRow.piotroski h)))
      · exact Or.inr (Or.inr (Or.inr (by simpa using hz RawRow.altman h)))
    refine ⟨_, by rw [getElem?_signalsTable, if_pos hi], hpos, ?_⟩
    rw [getElem?_forensicAlpha, hdfget, getElem?_signalsTable, if_pos hi]
    have hne := ne_of_gt hpos
    simp [mkAlphaRow, blendAlphaPre]
    exact hne

/-- Witness for C7: on a one-year input with all four metrics present
and `min_signals = 1`, the surviving row has a positive effective
denominator and a non-null alpha; and an all-null signal row with zero
denominator blends to null. -/
theorem zero_denom_safe_witness :
    blendAlphaPre ⟨none, none, none, none⟩ = none ∧
    (∃ s : SigRow,
      (signalsTable (filteredRows [⟨2020, some 1, some 2, some 3, some 4⟩]
        1))[0]? = some s ∧
      0 < effectiveDenom s ∧
      ((forensicAlpha [⟨2020, some 1, some 2, some 3, some 4⟩] 1)[0]?).map
        (fun r => r.forensic_alpha.isSome) = some true) := by
  constructor
  · exact zero_denom_safe.1 _ (by simp [effectiveDenom, weightedRow])
  · exact zero_denom_safe.2 _ 1 (by norm_num) 0
      (by norm_num [filteredRows, signalCount])

/-- Blending as worded by the spec: collect the (weight, value) pairs
of the non-null polarity-corrected signals, sum the weighted values and
divide by the sum of the collected static weights; null when no signal
is present. -/
noncomputable def specBlend (s : SigRow) : Option ℝ :=
  let present := ([(wBeneish, s.beneish_signal), (wSloan, s.sloan_signal),
    (wPiotroski, s.piotroski_signal), (wAltman, s.altman_signal)]).filterMap
    (fun p => p.2.map (fun v => (p.1, v)))
  if present = [] then none
  else some ((present.map (fun p => p.1 * p.2)).sum /
    (present.map Prod.fst).sum)

/-- Claim C2: the blending formula.  The static weights are 0.35, 0.25,
0.25, 0.15 (sum 1.0); for every signal row the pre-rounding alpha is
the sum of the non-null weighted signals divided by the sum of the
static weights of the non-null signals; every output row carries the
rounded value of that quotient; and when exactly one of the four
signals is null the divisor is the sum of the three remaining weights
(0.65 when the beneish signal is the missing one, not 1.0 — a row of
three unit signals blends to exactly 1). -/
theorem blend_renormalized :
    (wBeneish = 0.35 ∧ wSloan = 0.25 ∧ wPiotroski = 0.25 ∧ wAltman = 0.15 ∧
      wBeneish + wSloan + wPiotroski + wAltman = 1) ∧
    (∀ s : SigRow, blendAlphaPre s = specBlend s) ∧
    (∀ (input : List RawRow) (m : ℤ) (i : ℕ),
      ((forensicAlpha input m)[i]?).map (fun r => r.forensic_alpha) =
        ((signalsTable (filteredRows input m))[i]?).map
          (fun s => (specBlend s).map round4)) ∧
    (∀ x y z : ℝ, blendAlphaPre ⟨none, some x, some y, some z⟩ =
      some ((wSloan * x + wPiotroski * y + wAltman * z) /
        (wSloan + wPiotroski + wAltman))) ∧
    (∀ x y z : ℝ, blendAlphaPre ⟨some x, none, some y, some z⟩ =
      some ((wBeneish * x + wPiotroski * y + wAltman * z) /
        (wBeneish + wPiotroski + wAltman))) ∧
    (∀ x y z : ℝ, blendAlphaPre ⟨some x, some y, none, some z⟩ =
      some ((wBeneish * x + wSloan * y + wAltman * z) /
        (wBeneish + wSloan + wAltman))) ∧
    (∀ x y z : ℝ, blendAlphaPre ⟨some x, some y, some z, none⟩ =
      some ((wBeneish * x + wSloan * y + wPiotroski * z) /
        (wBeneish + wSloan + wPiotroski))) ∧
    wSloan + wPiotroski + wAltman = 0.65 ∧
    blendAlphaPre ⟨none, some 1, some 1, some 1⟩ = some 1 := by
  have hmain : ∀ s : SigRow, blendAlphaPre s = specBlend s := by
    rintro ⟨b, s1, p, a⟩
    rcases b with _ | xb <;> rcases s1 with _ | xs <;> rcases p with _ | xp <;>
      rcases a with _ | xa <;>
      · simp [blendAlphaPre, specBlend, weightedRow, effectiveDenom, optSum,
          wBeneish, wSloan, wPiotroski, wAltman]
        try norm_num
        try ring_nf
  refine ⟨by norm_num [wBeneish, wSloan, wPiotroski, wAltman], hmain,
    fun input m i => ?_, ?_, ?_, ?_, ?_,
    by norm_num [wSloan, wPiotroski, wAltman], ?_⟩
  · rw [getElem?_forensicAlpha]
    by_cases h : i < (filteredRows input m).length
    · rw [List.getElem?_eq_getElem h, getElem?_signalsTable, if_pos h]
      simp [mkAlphaRow, hmain]
    · rw [List.getElem?_eq_none (le_of_not_lt h), getElem?_signalsTable,
        if_neg h]
      simp
  · intro x y z
    simp [blendAlphaPre, weightedRow, effectiveDenom, optSum,
      wSloan, wPiotroski, wAltman]
    norm_num
    ring_nf
  · intro x y z
    simp [blendAlphaPre, weightedRow, effectiveDenom, optSum,
      wBeneish, wPiotroski, wAltman]
    norm_num
    ring_nf
  · intro x y z
    simp [blendAlphaPre, weightedRow, effectiveDenom, optSum,
      wBeneish, wSloan, wAltman]
    norm_num
    ring_nf
  · intro x y z
    simp [blendAlphaPre, weightedRow, effectiveDenom, optSum,
      wBeneish, wSloan, wPiotroski]
    norm_num
    ring_nf
  · simp [blendAlphaPre, weightedRow, effectiveDenom, optSum,
      wSloan, wPiotroski, wAltman]
    norm_num

/-- Concrete input whose shared year index is not ascending (the code
never sorts; `pd.DataFrame` keeps the order of an identical shared
index, and the boolean row mask keeps it too). -/
def I9 : List RawRow :=
  [⟨2022, some 1, some 1, some 1, some 1⟩,
    ⟨2020, some 1, some 1, some 1, some 1⟩]

/-- Counterexample to claim C9: on an input given in the year order
[2022, 2020] the output table is in that same order, not ascending. -/
theorem output_order_cex :
    (forensicAlpha I9 3).map AlphaRow.year = [2022, 2020] ∧
    ¬ List.Sorted (· ≤ ·) ((forensicAlpha I9 3).map AlphaRow.year) := by
  have h : (forensicAlpha I9 3).map AlphaRow.year = [2022, 2020] := by
    rw [forensicAlpha_map_year]
    norm_num [filteredRows, I9, signalCount]
  refine ⟨h, ?_⟩
  rw [h]
  decide

/-- Claim C9 amended: the output table preserves the input row order
(the output years are exactly the surviving input years in input
order); it is ordered by year ascending whenever the input is (as it is
in the app, which feeds the core from a sorted pivot). -/
theorem output_order_preserved :
    (∀ (input : List RawRow) (m : ℤ),
      (forensicAlpha input m).map AlphaRow.year =
        (filteredRows input m).map RawRow.year) ∧
    (∀ (input : List RawRow) (m : ℤ),
      List.Sorted (· ≤ ·) (input.map RawRow.year) →
      List.Sorted (· ≤ ·) ((forensicAlpha input m).map AlphaRow.year)) := by
  refine ⟨forensicAlpha_map_year, fun input m hs => ?_⟩
  rw [forensicAlpha_map_year]
  exact hs.sublist ((List.filter_sublist input).map RawRow.year)

/-- Witness for C9 amended: an ascending three-year input yields an
ascending output. -/
theorem output_order_preserved_witness :
    List.Sorted (· ≤ ·) ((forensicAlpha I4 3).map AlphaRow.year) :=
  output_order_preserved.2 I4 3
    (by rw [show I4.map RawRow.year = [2020, 2021, 2022] by simp [I4]]; decide)

/-- The rounded value lies between the floor and the floor plus one of
its argument. -/
theorem roundHalfEven_mem (y : ℝ) :
    ⌊y⌋ ≤ roundHalfEven y ∧ roundHalfEven y ≤ ⌊y⌋ + 1 := by
  rw [roundHalfEven]
  split
  · split
    · exact ⟨le_refl _, by omega⟩
    · exact ⟨by omega, le_refl _⟩
  · rw [round_eq]
    constructor
    · exact Int.floor_le_floor (by linarith)
    · have h := Int.floor_le_floor (α := ℝ) (show y + 1/2 ≤ y + 1 by linarith)
      rwa [Int.floor_add_one] at h

/-- Evaluation of the rounding away from the tie. -/
theorem roundHalfEven_of_bounds (y : ℝ) (m n : ℤ) (hm : ⌊y⌋ = m)
    (hne : y - (m : ℝ) ≠ 1 / 2) (h2 : (n : ℝ) ≤ y + 1 / 2)
    (h3 : y + 1 / 2 < (n : ℝ) + 1) : roundHalfEven y = n := by
  rw [roundHalfEven, if_neg (by rw [Int.fract, hm]; exact hne), round_eq]
  exact Int.floor_eq_iff.mpr ⟨h2, h3⟩

/-- Claim C10 amended: every forensic alpha in the output is rounded to
exactly 4 decimal places (it is an integer multiple of 1/10000); two
pre-rounding values that agree through the 4th decimal (equal floors at
scale 10^4) produce rounded outputs at most one unit in the 4th decimal
apart — but equality is not guaranteed at a rounding boundary. -/
theorem rounding_4dp :
    (∀ (input : List RawRow) (m : ℤ) (i : ℕ) (r : AlphaRow) (x : ℝ),
      (forensicAlpha input m)[i]? = some r → r.forensic_alpha = some x →
      ∃ n : ℤ, x = (n : ℝ) / 10000) ∧
    (∀ x y : ℝ, ⌊x * 10000⌋ = ⌊y * 10000⌋ →
      |round4 x - round4 y| ≤ 1 / 10000) := by
  constructor
  · intro input m i r x hr hx
    rw [getElem?_forensicAlpha] at hr
    rcases h1 : (filteredRows input m)[i]? with _ | r0 <;> rw [h1] at hr
    · exact absurd hr (by simp)
    rcases h2 : (signalsTable (filteredRows input m))[i]? with _ | s <;>
      rw [h2] at hr
    · exact absurd hr (by simp)
    have hre : mkAlphaRow r0 s = r := by simpa using hr
    rw [← hre] at hx
    simp only [mkAlphaRow] at hx
    rcases hb : blendAlphaPre s with _ | v <;> rw [hb] at hx
    · exact absurd hx (by simp)
    · refine ⟨roundHalfEven (v * 10000), ?_⟩
      have := Option.some_inj.mp (by simpa using hx)
      rw [← this, round4]
  · intro x y h
    obtain ⟨ha1, ha2⟩ := roundHalfEven_mem (x * 10000)
    obtain ⟨hb1, hb2⟩ := roundHalfEven_mem (y * 10000)
    have hd : |roundHalfEven (x * 10000) - roundHalfEven (y * 10000)| ≤ 1 := by
      rw [abs_le]
      omega
    have hdr : |((roundHalfEven (x * 10000) : ℝ)) -
        ((roundHalfEven (y * 10000) : ℝ))| ≤ 1 := by
      rw [← Int.cast_sub, ← Int.cast_abs]
      exact_mod_cast hd
    rw [round4, round4, div_sub_div_same, abs_div,
      abs_of_pos (show (0 : ℝ) < 10000 by norm_num)]
    rw [div_le_div_iff₀ (by norm_num) (by norm_num)]
    nlinarith [hdr]

/-- Witness for C10 amended: the alpha of a complete one-year input is
an exact multiple of 1/10000, and two pre-rounding values 0.00013 and
0.00019 (equal floors at scale 10^4) round to values at most 1/10000
apart. -/
theorem rounding_4dp_witness :
    (∃ n : ℤ, round4 0 = (n : ℝ) / 10000) ∧
    |round4 0.00013 - round4 0.00019| ≤ 1 / 10000 := by
  constructor
  · apply rounding_4dp.1 [⟨2020, some 1, some 1, some 1, some 1⟩] 3 0
      (mkAlphaRow ⟨2020, some 1, some 1, some 1, some 1⟩
        ⟨some 0, some 0, some 0, some 0⟩) (round4 0)
    · rw [getElem?_forensicAlpha]
      have hfil : filteredRows [⟨2020, some 1, some 1, some 1, some 1⟩] 3 =
          [⟨2020, some 1, some 1, some 1, some 1⟩] := rfl
      rw [hfil, getElem?_signalsTable, if_pos (by norm_num)]
      have hz : ∀ c : RawRow → Option ℝ,
          zscoreStep (([(⟨2020, some 1, some 1, some 1,
            some 1⟩ : RawRow)].map c).take (0 + 1)) =
            zscoreStep [c ⟨2020, some 1, some 1, some 1, some 1⟩] :=
        fun _ => rfl
      rw [hz RawRow.beneish]
      have hdeg : ∀ x : Option ℝ, zscoreStep [x] = some 0 := by
        intro x
        apply zscoreStep_degen
        left
        have h1 : ([x].reduceOption).length ≤ 1 := by
          have h2 := List.reduceOption_length_le [x]
          simpa using h2
        omega
      simp [hdeg]
    · simp only [mkAlphaRow]
      have hb : blendAlphaPre ⟨some 0, some 0, some 0, some 0⟩ = some 0 := by
        rw [blendAlphaPre]
        rw [if_neg (by norm_num [effectiveDenom, weightedRow,
          wBeneish, wSloan, wPiotroski, wAltman])]
        norm_num [optSum, weightedRow, effectiveDenom,
          wBeneish, wSloan, wPiotroski, wAltman]
      rw [hb]
      rfl
  · apply rounding_4dp.2
    rw [show (0.00013 : ℝ) * 10000 = 1.3 by norm_num,
      show (0.00019 : ℝ) * 10000 = 1.9 by norm_num]
    rw [show ⌊(1.3 : ℝ)⌋ = 1 by norm_num [Int.floor_eq_iff],
      show ⌊(1.9 : ℝ)⌋ = 1 by norm_num [Int.floor_eq_iff]]

/-- Concrete input: three constant metric columns and one tuned
piotroski column whose pre-rounding alpha at the third year is just
below the 0.00015 rounding boundary. -/
noncomputable def I10a : List RawRow :=
  [⟨2020, some 1, some 1, some (-1), some 1⟩,
    ⟨2021, some 1, some 1, some 1, some 1⟩,
    ⟨2022, some 1, some 1, some (7800000 / 9999999493), some 1⟩]

/-- Concrete input: same as `I10a` except for the last piotroski value,
whose pre-rounding alpha at the third year is just above the 0.00015
rounding boundary while agreeing with `I10a` through the 4th decimal. -/
noncomputable def I10b : List RawRow :=
  [⟨2020, some 1, some 1, some (-1), some 1⟩,
    ⟨2021, some 1, some 1, some 1, some 1⟩,
    ⟨2022, some 1, some 1, some (10200000 / 9999999133), some 1⟩]

/-- Two nullable values differ only beyond the 4th decimal place: both
null, or both non-null with the same integer part at scale 10^4. -/
def agree4 : Option ℝ → Option ℝ → Prop
  | none, none => True
  | some a, some b => ⌊a * 10000⌋ = ⌊b * 10000⌋
  | _, _ => False

theorem agree4_refl (o : Option ℝ) : agree4 o o := by
  cases o <;> simp [agree4]

/-- Evaluation of a fully observed 3-element window with rational
standard deviation. -/
theorem zscoreStep_three (a b c mv sv zv : ℝ) (hsv : 0 < sv)
    (hm : listMean [a, b, c] = mv) (hv : sampleVar [a, b, c] = sv ^ 2)
    (hz : (c - mv) / sv = zv) :
    zscoreStep [some a, some b, some c] = some zv := by
  have hobs : ([some a, some b, some c]).reduceOption = [a, b, c] := by simp
  have hstd : sampleStd [a, b, c] = sv := sampleStd_of_sq _ _ (le_of_lt hsv) hv
  have hne : ¬(([some a, some b, some c].reduceOption).length < 2 ∨
      sampleStd ([some a, some b, some c].reduceOption) = 0) := by
    rw [hobs]
    push_neg
    exact ⟨by norm_num, by rw [hstd]; exact ne_of_gt hsv⟩
  rw [zscoreStep_active _ hne, hobs, hm, hstd]
  have hlast : ([some a, some b, some c]).getLast?.join = some c := rfl
  rw [hlast]
  simp [hz]

theorem zscoreStep_triple_eq (v : ℝ) :
    zscoreStep [some v, some v, some v] = some 0 := by
  have hobs : ([some v, some v, some v]).reduceOption = [v, v, v] := by simp
  refine zscoreStep_degen _ (Or.inr ?_)
  rw [hobs]
  refine sampleStd_of_zero _ ?_
  have hm : listMean [v, v, v] = v := by
    rw [listMean]
    norm_num
    ring
  rw [sampleVar, hm]
  norm_num

theorem zscoreStep_tunedA :
    zscoreStep [some (-1 : ℝ), some 1, some (7800000 / 9999999493)] =
      some (5200000 / 10000000507) := by
  refine zscoreStep_three _ _ _ (2600000 / 9999999493)
    (10000000507 / 9999999493) _ (by norm_num) ?_ ?_ ?_
  · rw [listMean]
    norm_num
  · rw [sampleVar]
    rw [show listMean [(-1 : ℝ), 1, 7800000 / 9999999493] =
      2600000 / 9999999493 by rw [listMean]; norm_num]
    norm_num
  · norm_num

theorem zscoreStep_tunedB :
    zscoreStep [some (-1 : ℝ), some 1, some (10200000 / 9999999133)] =
      some (6800000 / 10000000867) := by
  refine zscoreStep_three _ _ _ (3400000 / 9999999133)
    (10000000867 / 9999999133) _ (by norm_num) ?_ ?_ ?_
  · rw [listMean]
    norm_num
  · rw [sampleVar]
    rw [show listMean [(-1 : ℝ), 1, 10200000 / 9999999133] =
      3400000 / 9999999133 by rw [listMean]; norm_num]
    norm_num
  · norm_num

theorem signalsTable_I10a_two :
    (signalsTable I10a)[2]? =
      some ⟨some 0, some 0, some (5200000 / 10000000507), some 0⟩ := by
  rw [getElem?_signalsTable, if_pos (by norm_num [I10a])]
  have hb : (I10a.map RawRow.beneish).take (2 + 1) =
      [some 1, some 1, some 1] := rfl
  have hs : (I10a.map RawRow.sloan).take (2 + 1) =
      [some 1, some 1, some 1] := rfl
  have hp : (I10a.map RawRow.piotroski).take (2 + 1) =
      [some (-1), some 1, some (7800000 / 9999999493)] := rfl
  have ha : (I10a.map RawRow.altman).take (2 + 1) =
      [some 1, some 1, some 1] := rfl
  rw [hb, hs, hp, ha, zscoreStep_triple_eq, zscoreStep_tunedA]
  simp

theorem signalsTable_I10b_two :
    (signalsTable I10b)[2]? =
      some ⟨some 0, some 0, some (6800000 / 10000000867), some 0⟩ := by
  rw [getElem?_signalsTable, if_pos (by norm_num [I10b])]
  have hb : (I10b.map RawRow.beneish).take (2 + 1) =
      [some 1, some 1, some 1] := rfl
  have hs : (I10b.map RawRow.sloan).take (2 + 1) =
      [some 1, some 1, some 1] := rfl
  have hp : (I10b.map RawRow.piotroski).take (2 + 1) =
      [some (-1), some 1, some (10200000 / 9999999133)] := rfl
  have ha : (I10b.map RawRow.altman).take (2 + 1) =
      [some 1, some 1, some 1] := rfl
  rw [hb, hs, hp, ha, zscoreStep_triple_eq, zscoreStep_tunedB]
  simp

theorem blend_tunedA :
    blendAlphaPre ⟨some 0, some 0, some (5200000 / 10000000507), some 0⟩ =
      some (1300000 / 10000000507) := by
  rw [blendAlphaPre]
  rw [if_neg (by norm_num [effectiveDenom, weightedRow,
    wBeneish, wSloan, wPiotroski, wAltman])]
  norm_num [optSum, weightedRow, effectiveDenom,
    wBeneish, wSloan, wPiotroski, wAltman]

theorem blend_tunedB :
    blendAlphaPre ⟨some 0, some 0, some (6800000 / 10000000867), some 0⟩ =
      some (1700000 / 10000000867) := by
  rw [blendAlphaPre]
  rw [if_neg (by norm_num [effectiveDenom, weightedRow,
    wBeneish, wSloan, wPiotroski, wAltman])]
  norm_num [optSum, weightedRow, effectiveDenom,
    wBeneish, wSloan, wPiotroski, wAltman]

theorem alphaPre_I10a_two :
    (alphaPreList I10a 3)[2]? = some (some (1300000 / 10000000507)) := by
  rw [alphaPreList, show filteredRows I10a 3 = I10a from rfl,
    List.getElem?_map, signalsTable_I10a_two]
  simp [blend_tunedA]

theorem alphaPre_I10b_two :
    (alphaPreList I10b 3)[2]? = some (some (1700000 / 10000000867)) := by
  rw [alphaPreList, show filteredRows I10b 3 = I10b from rfl,
    List.getElem?_map, signalsTable_I10b_two]
  simp [blend_tunedB]

theorem round4_tunedA : round4 (1300000 / 10000000507) = 1 / 10000 := by
  rw [round4]
  rw [show roundHalfEven ((1300000 / 10000000507 : ℝ) * 10000) = 1 from
    roundHalfEven_of_bounds _ 1 1
      (Int.floor_eq_iff.mpr ⟨by norm_num, by norm_num⟩)
      (by norm_num) (by norm_num) (by norm_num)]
  norm_num

theorem round4_tunedB : round4 (1700000 / 10000000867) = 1 / 5000 := by
  rw [round4]
  rw [show roundHalfEven ((1700000 / 10000000867 : ℝ) * 10000) = 2 from
    roundHalfEven_of_bounds _ 1 2
      (Int.floor_eq_iff.mpr ⟨by norm_num, by norm_num⟩)
      (by norm_num) (by norm_num) (by norm_num)]
  norm_num

theorem alpha_I10a_two :
    ((forensicAlpha I10a 3)[2]?).map AlphaRow.forensic_alpha =
      some (some (1 / 10000)) := by
  rw [getElem?_forensicAlpha, show filteredRows I10a 3 = I10a from rfl,
    signalsTable_I10a_two,
    show I10a[2]? = some ⟨2022, some 1, some 1,
      some (7800000 / 9999999493), some 1⟩ from rfl]
  simp [mkAlphaRow, blend_tunedA, round4_tunedA]

theorem alpha_I10b_two :
    ((forensicAlpha I10b 3)[2]?).map AlphaRow.forensic_alpha =
      some (some (1 / 5000)) := by
  rw [getElem?_forensicAlpha, show filteredRows I10b 3 = I10b from rfl,
    signalsTable_I10b_two,
    show I10b[2]? = some ⟨2022, some 1, some 1,
      some (10200000 / 9999999133), some 1⟩ from rfl]
  simp [mkAlphaRow, blend_tunedB, round4_tunedB]

/-- Counterexample to claim C10: the two inputs `I10a` and `I10b` have
pre-rounding alpha series that differ only beyond the 4th decimal place
(rows 1 and 2 coincide exactly; row 3 gives 0.0001299... versus
0.0001699..., same integer part at scale 10^4), yet the outputs differ:
the third alphas round to 0.0001 and 0.0002 respectively. -/
theorem rounding_4dp_cex :
    List.Forall₂ agree4 (alphaPreList I10a 3) (alphaPreList I10b 3) ∧
    forensicAlpha I10a 3 ≠ forensicAlpha I10b 3 := by
  constructor
  · rw [List.forall₂_iff_get]
    have hla : (alphaPreList I10a 3).length = 3 := rfl
    have hlb : (alphaPreList I10b 3).length = 3 := rfl
    refine ⟨by rw [hla, hlb], ?_⟩
    intro i h1 h2
    match i with
    | 0 => exact agree4_refl _
    | 1 => exact agree4_refl _
    | 2 =>
      have ha : (alphaPreList I10a 3).get ⟨2, h1⟩ =
          some (1300000 / 10000000507) := by
        have h3 := alphaPre_I10a_two
        rw [List.getElem?_eq_getElem h1] at h3
        exact Option.some_inj.mp (by simpa using h3)
      have hb : (alphaPreList I10b 3).get ⟨2, h2⟩ =
          some (1700000 / 10000000867) := by
        have h3 := alphaPre_I10b_two
        rw [List.getElem?_eq_getElem h2] at h3
        exact Option.some_inj.mp (by simpa using h3)
      rw [ha, hb]
      show ⌊(1300000 / 10000000507 : ℝ) * 10000⌋ =
        ⌊(1700000 / 10000000867 : ℝ) * 10000⌋
      rw [show ⌊(1300000 / 10000000507 : ℝ) * 10000⌋ = 1 from
        Int.floor_eq_iff.mpr ⟨by norm_num, by norm_num⟩]
      rw [show ⌊(1700000 / 10000000867 : ℝ) * 10000⌋ = 1 from
        Int.floor_eq_iff.mpr ⟨by norm_num, by norm_num⟩]
    | (n + 3) =>
      rw [hla] at h1
      omega
  · intro heq
    have h2 := congrArg
      (fun l => (l[2]?).map (fun r => AlphaRow.forensic_alpha r)) heq
    simp only at h2
    rw [alpha_I10a_two, alpha_I10b_two] at h2
    have h3 := Option.some_inj.mp h2
    have h4 := Option.some_inj.mp h3
    norm_num at h4

end ForensicAlpha
